import Mathlib

/-!
Verification of the s3up transfer engine against its specification.

Each definition below is a shallow embedding of a function from the
repository sources (src/lib/state.ts, src/lib/multipart.ts,
src/lib/signing.ts, src/lib/progress-bar.ts, src/lib/s3.ts,
src/commands/prune.ts).  JavaScript numbers are modelled as Nat / Int
(exact arithmetic), JS arrays as List, and the stable Array.prototype.sort
as insertion sort (List.insertionSort), which implements the same stable
ordering mandated for JS sorts.
-/

namespace S3up

/-! ### src/lib/state.ts : data model -/

/-- CompletedPart from state.ts: `{partNumber: number, etag: string}`. -/
structure CompletedPart where
  partNumber : Nat
  etag : String
deriving Repr, DecidableEq

/-- UploadState from state.ts (sidecar schema, version 1). -/
structure UploadState where
  version : Nat
  uploadId : String
  bucket : String
  key : String
  fileSize : Nat
  fileModified : Int
  chunkSize : Nat
  totalParts : Nat
  completedParts : List CompletedPart
  createdAt : Int
  provider : String
  endpoint : String
deriving Repr, DecidableEq

/-- The comparator `(a, b) => a.partNumber - b.partNumber` used by
`state.completedParts.sort` in addCompletedPart, as the ordering relation
of a stable sort: `a` sorts no later than `b` iff `a.partNumber ≤ b.partNumber`. -/
def partOrder (a b : CompletedPart) : Prop :=
  a.partNumber ≤ b.partNumber

instance : DecidableRel partOrder := fun a b => Nat.decLe a.partNumber b.partNumber

instance : IsTotal CompletedPart partOrder :=
  ⟨fun a b => Nat.le_total a.partNumber b.partNumber⟩

instance : IsTrans CompletedPart partOrder :=
  ⟨fun _ _ _ hab hbc => Nat.le_trans hab hbc⟩

/-- The upsert step of addCompletedPart (state.ts lines 95-103):
`findIndex` locates the first entry with the same part number and is
replaced in place; otherwise the part is pushed at the end. -/
def upsertByPartNumber (part : CompletedPart) : List CompletedPart → List CompletedPart
  | [] => [part]
  | p :: rest =>
    if p.partNumber = part.partNumber then part :: rest
    else p :: upsertByPartNumber part rest

/-- addCompletedPart (state.ts lines 90-109), restricted to its effect on the
completedParts list: upsert by part number, then re-sort ascending by
part number with the stable JS sort (then `saveState` persists the result). -/
def addCompletedPartList (l : List CompletedPart) (part : CompletedPart) : List CompletedPart :=
  (upsertByPartNumber part l).insertionSort partOrder

/-- Part numbers appearing in a completedParts list. -/
def partNumbers (l : List CompletedPart) : List Nat :=
  l.map (·.partNumber)

/-! ### Lemmas about the upsert step -/

theorem mem_upsert {l : List CompletedPart} {part q : CompletedPart}
    (hnd : (partNumbers l).Nodup) :
    q ∈ upsertByPartNumber part l ↔
      q = part ∨ (q ∈ l ∧ q.partNumber ≠ part.partNumber) := by
  induction l with
  | nil =>
    simp [upsertByPartNumber]
  | cons p rest ih =>
    simp only [partNumbers, List.map_cons, List.nodup_cons, List.mem_map] at hnd
    obtain ⟨hpn, hrest⟩ := hnd
    by_cases hp : p.partNumber = part.partNumber
    · simp only [upsertByPartNumber, if_pos hp, List.mem_cons]
      constructor
      · rintro (rfl | hq)
        · exact Or.inl rfl
        · refine Or.inr ⟨Or.inr hq, ?_⟩
          intro hqe
          exact hpn ⟨q, hq, by omega⟩
      · rintro (rfl | ⟨hq, hqe⟩)
        · exact Or.inl rfl
        · rcases hq with rfl | hq'
          · exact absurd hp hqe
          · exact Or.inr hq'
    · simp only [upsertByPartNumber, if_neg hp, List.mem_cons]
      rw [ih hrest]
      constructor
      · rintro (rfl | rfl | ⟨hq, hqe⟩)
        · exact Or.inr ⟨Or.inl rfl, hp⟩
        · exact Or.inl rfl
        · exact Or.inr ⟨Or.inr hq, hqe⟩
      · rintro (rfl | ⟨hq, hqe⟩)
        · exact Or.inr (Or.inl rfl)
        · rcases hq with rfl | hq'
          · exact Or.inl rfl
          · exact Or.inr (Or.inr ⟨hq', hqe⟩)

theorem partNumbers_upsert (part : CompletedPart) (l : List CompletedPart) :
    partNumbers (upsertByPartNumber part l) =
      if part.partNumber ∈ partNumbers l then partNumbers l
      else partNumbers l ++ [part.partNumber] := by
  induction l with
  | nil => simp [upsertByPartNumber, partNumbers]
  | cons p rest ih =>
    by_cases hp : p.partNumber = part.partNumber
    · simp [upsertByPartNumber, hp, partNumbers]
    · simp only [upsertByPartNumber, if_neg hp, partNumbers, List.map_cons] at ih ⊢
      rw [ih]
      have : (part.partNumber ∈ p.partNumber :: List.map (fun x => x.partNumber) rest) ↔
          (part.partNumber ∈ List.map (fun x => x.partNumber) rest) := by
        simp only [List.mem_cons]
        constructor
        · rintro (h | h)
          · exact absurd h.symm hp
          · exact h
        · exact Or.inr
      by_cases hm : part.partNumber ∈ List.map (fun x => x.partNumber) rest
      · rw [if_pos hm, if_pos (this.mpr hm)]
      · rw [if_neg hm, if_neg (fun h => hm (this.mp h))]
        simp

theorem nodup_partNumbers_upsert {l : List CompletedPart} (part : CompletedPart)
    (hnd : (partNumbers l).Nodup) :
    (partNumbers (upsertByPartNumber part l)).Nodup := by
  rw [partNumbers_upsert]
  by_cases hm : part.partNumber ∈ partNumbers l
  · rwa [if_pos hm]
  · rw [if_neg hm]
    refine List.Nodup.append hnd (List.nodup_singleton _) ?_
    intro a ha hb
    simp only [List.mem_singleton] at hb
    subst hb
    exact hm ha

/-! ### Lemmas about the stable re-sort -/

theorem partNumbers_nodup_of_perm {l l' : List CompletedPart} (h : List.Perm l l')
    (hnd : (partNumbers l).Nodup) : (partNumbers l').Nodup := by
  rw [partNumbers] at hnd ⊢
  exact ((h.map (fun q : CompletedPart => q.partNumber)).nodup_iff).mp hnd

/-- Sorted-by-≤ together with no duplicate part numbers gives a strictly
increasing part-number sequence. -/
theorem pairwise_lt_of_sorted_nodup {l : List CompletedPart}
    (hs : l.Sorted partOrder) (hnd : (partNumbers l).Nodup) :
    l.Pairwise (fun a b => a.partNumber < b.partNumber) := by
  have hne : l.Pairwise (fun a b : CompletedPart => a.partNumber ≠ b.partNumber) := by
    have h1 : (partNumbers l).Pairwise (· ≠ ·) := hnd
    rw [partNumbers, List.pairwise_map] at h1
    exact h1
  exact (hs.and hne).imp (fun h => Nat.lt_of_le_of_ne h.1 h.2)

theorem countP_upsert (part : CompletedPart) {l : List CompletedPart}
    (hnd : (partNumbers l).Nodup) :
    (upsertByPartNumber part l).countP (fun q => q.partNumber == part.partNumber) = 1 := by
  induction l with
  | nil => simp [upsertByPartNumber]
  | cons p rest ih =>
    simp only [partNumbers, List.map_cons, List.nodup_cons, List.mem_map] at hnd
    obtain ⟨hpn, hrest⟩ := hnd
    by_cases hp : p.partNumber = part.partNumber
    · simp only [upsertByPartNumber, if_pos hp, List.countP_cons]
      have hzero : rest.countP (fun q => q.partNumber == part.partNumber) = 0 := by
        rw [List.countP_eq_zero]
        intro q hq
        simp only [beq_iff_eq]
        intro he
        exact hpn ⟨q, hq, by omega⟩
      simp [hzero]
    · simp only [upsertByPartNumber, if_neg hp, List.countP_cons]
      have : ¬ (p.partNumber == part.partNumber) = true := by simpa using hp
      simp [this, ih hrest]

/-- C2 core: the full addCompletedPart list transformation is sorted strictly
ascending, performs replace-or-insert, and leaves exactly one entry with the
added part number. -/
theorem addCompletedPartList_spec (l : List CompletedPart) (part : CompletedPart)
    (hnd : (partNumbers l).Nodup) :
    ((addCompletedPartList l part).Pairwise (fun a b => a.partNumber < b.partNumber)) ∧
    (∀ q, q ∈ addCompletedPartList l part ↔
        q = part ∨ (q ∈ l ∧ q.partNumber ≠ part.partNumber)) ∧
    ((addCompletedPartList l part).countP (fun q => q.partNumber == part.partNumber) = 1) := by
  have hperm : List.Perm (addCompletedPartList l part) (upsertByPartNumber part l) :=
    List.perm_insertionSort partOrder _
  have hndu : (partNumbers (upsertByPartNumber part l)).Nodup :=
    nodup_partNumbers_upsert part hnd
  have hnds : (partNumbers (addCompletedPartList l part)).Nodup :=
    partNumbers_nodup_of_perm hperm.symm hndu
  have hsorted : (addCompletedPartList l part).Sorted partOrder :=
    List.sorted_insertionSort partOrder _
  refine ⟨pairwise_lt_of_sorted_nodup hsorted hnds, ?_, ?_⟩
  · intro q
    rw [hperm.mem_iff]
    exact mem_upsert hnd
  · rw [hperm.countP_eq]
    exact countP_upsert part hnd

theorem nodup_partNumbers_of_pairwise_lt {l : List CompletedPart}
    (h : l.Pairwise (fun a b => a.partNumber < b.partNumber)) :
    (partNumbers l).Nodup := by
  rw [partNumbers, List.Nodup, List.pairwise_map]
  exact h.imp (fun hl => Nat.ne_of_lt hl)

/-- When the first (and only) entry carrying the part number is the part
itself, the upsert is the identity. -/
theorem upsert_eq_self {l : List CompletedPart} {part : CompletedPart}
    (huniq : ∀ q ∈ l, q.partNumber = part.partNumber → q = part)
    (hmem : part ∈ l) :
    upsertByPartNumber part l = l := by
  induction l with
  | nil => cases hmem
  | cons p rest ih =>
    by_cases hp : p.partNumber = part.partNumber
    · have : p = part := huniq p (List.mem_cons_self _ _) hp
      subst this
      simp [upsertByPartNumber, hp]
    · simp only [upsertByPartNumber, if_neg hp]
      have hmem' : part ∈ rest := by
        rcases List.mem_cons.mp hmem with rfl | hm
        · exact absurd rfl hp
        · exact hm
      rw [ih (fun q hq he => huniq q (List.mem_cons_of_mem _ hq) he) hmem']

theorem addCompletedPartList_idem (l : List CompletedPart) (part : CompletedPart)
    (hnd : (partNumbers l).Nodup) :
    addCompletedPartList (addCompletedPartList l part) part = addCompletedPartList l part := by
  have hperm : List.Perm (addCompletedPartList l part) (upsertByPartNumber part l) :=
    List.perm_insertionSort partOrder _
  have hmem : part ∈ addCompletedPartList l part := by
    rw [hperm.mem_iff, mem_upsert hnd]
    exact Or.inl rfl
  have huniq : ∀ q ∈ addCompletedPartList l part, q.partNumber = part.partNumber → q = part := by
    intro q hq he
    rw [hperm.mem_iff, mem_upsert hnd] at hq
    rcases hq with rfl | ⟨_, hne⟩
    · rfl
    · exact absurd he hne
  have hsorted : (addCompletedPartList l part).Sorted partOrder :=
    List.sorted_insertionSort partOrder _
  have hup : upsertByPartNumber part (addCompletedPartList l part) = addCompletedPartList l part :=
    upsert_eq_self huniq hmem
  calc addCompletedPartList (addCompletedPartList l part) part
      = (upsertByPartNumber part (addCompletedPartList l part)).insertionSort partOrder := rfl
    _ = (addCompletedPartList l part).insertionSort partOrder := by rw [hup]
    _ = addCompletedPartList l part := hsorted.insertionSort_eq

/-- C2: `addCompletedPart`, acting on a completedParts list that is sorted
ascending with no duplicate part numbers, replaces the entry with the same
part number or inserts the new part otherwise; the result is again sorted
strictly ascending by part number (hence exactly one entry per part number),
carries exactly one entry with the added part number, and adding the same
part twice gives the same list as adding it once. -/
theorem addCompletedPart_idempotent_sorted (l : List CompletedPart) (part : CompletedPart)
    (hsorted : l.Pairwise (fun a b => a.partNumber < b.partNumber)) :
    (∀ q, q ∈ addCompletedPartList l part ↔
        q = part ∨ (q ∈ l ∧ q.partNumber ≠ part.partNumber)) ∧
    ((addCompletedPartList l part).Pairwise (fun a b => a.partNumber < b.partNumber)) ∧
    ((addCompletedPartList l part).countP (fun q => q.partNumber == part.partNumber) = 1) ∧
    (addCompletedPartList (addCompletedPartList l part) part = addCompletedPartList l part) := by
  have hnd : (partNumbers l).Nodup := nodup_partNumbers_of_pairwise_lt hsorted
  obtain ⟨h1, h2, h3⟩ := addCompletedPartList_spec l part hnd
  exact ⟨h2, h1, h3, addCompletedPartList_idem l part hnd⟩

/-- C2 witness: adding part 2 into the sorted list [1, 3] inserts it in order,
leaves one entry for part number 2, and is idempotent. -/
theorem addCompletedPart_idempotent_sorted_witness :
    ((addCompletedPartList [⟨1, "a"⟩, ⟨3, "c"⟩] ⟨2, "b"⟩).Pairwise
        (fun a b => a.partNumber < b.partNumber)) ∧
    ((addCompletedPartList [⟨1, "a"⟩, ⟨3, "c"⟩] ⟨2, "b"⟩).countP
        (fun q => q.partNumber == (2 : Nat)) = 1) ∧
    (addCompletedPartList (addCompletedPartList [⟨1, "a"⟩, ⟨3, "c"⟩] ⟨2, "b"⟩) ⟨2, "b"⟩ =
        addCompletedPartList [⟨1, "a"⟩, ⟨3, "c"⟩] ⟨2, "b"⟩) :=
  ⟨(addCompletedPart_idempotent_sorted [⟨1, "a"⟩, ⟨3, "c"⟩] ⟨2, "b"⟩ (by decide)).2.1,
   (addCompletedPart_idempotent_sorted [⟨1, "a"⟩, ⟨3, "c"⟩] ⟨2, "b"⟩ (by decide)).2.2.1,
   (addCompletedPart_idempotent_sorted [⟨1, "a"⟩, ⟨3, "c"⟩] ⟨2, "b"⟩ (by decide)).2.2.2⟩

/-! ### src/lib/multipart.ts : part scheduler (uploadPartsInParallel) -/

/-- The `completedPartNumbers` set built at multipart.ts line 263. -/
def completedPartNumbers (state : UploadState) : List Nat :=
  state.completedParts.map (·.partNumber)

/-- The pending part list built at multipart.ts lines 264-271: the part
numbers 1..totalParts not recorded as completed, in ascending order. -/
def pendingParts (state : UploadState) : List Nat :=
  (List.range' 1 state.totalParts).filter
    (fun i => !((completedPartNumbers state).contains i))

/-- One part-upload request issued by the scheduler: part number together
with the byte range [start, stop) sliced from the file. -/
structure PartRequest where
  partNumber : Nat
  start : Nat
  stop : Nat
deriving Repr, DecidableEq

/-- The requests issued by uploadPartsInParallel (multipart.ts lines
286-332) with the module-level cancellation flag held fixed: when not
aborting, every pending part is issued with start = (p-1)*chunkSize and
end = min(start + chunkSize, fileSize); when the abort flag is set before
the loop, no request is issued. -/
def uploadRequests (state : UploadState) (isAborting : Bool) : List PartRequest :=
  if isAborting then []
  else
    (pendingParts state).map (fun p =>
      { partNumber := p
        start := (p - 1) * state.chunkSize
        stop := min ((p - 1) * state.chunkSize + state.chunkSize) state.fileSize })

/-- C1: with no cancellation pending, the scheduler issues requests for
exactly the part numbers in {1..n} not recorded as completed — n - k of
them when k distinct completed part numbers all lie in {1..n} — never
re-requests a completed part number, and gives every issued part p the
byte range [(p-1)*chunkSize, min(p*chunkSize, fileSize)). -/
theorem uploadPartsInParallel_resume_correct (state : UploadState) (n k : Nat)
    (hn : state.totalParts = n)
    (hk : state.completedParts.length = k)
    (hnodup : (completedPartNumbers state).Nodup)
    (hrange : ∀ p ∈ completedPartNumbers state, 1 ≤ p ∧ p ≤ n) :
    ((uploadRequests state false).map (·.partNumber) = pendingParts state) ∧
    (∀ p, p ∈ pendingParts state ↔
        (1 ≤ p ∧ p ≤ n ∧ p ∉ completedPartNumbers state)) ∧
    ((pendingParts state).length = n - k) ∧
    (∀ r ∈ uploadRequests state false,
        r.partNumber ∉ completedPartNumbers state ∧
        r.start = (r.partNumber - 1) * state.chunkSize ∧
        r.stop = min (r.partNumber * state.chunkSize) state.fileSize) := by
  have hcont : ∀ q : Nat, ((completedPartNumbers state).contains q = false) ↔
      q ∉ completedPartNumbers state := by
    intro q
    simp
  have hmem : ∀ p, p ∈ pendingParts state ↔
      (1 ≤ p ∧ p ≤ n ∧ p ∉ completedPartNumbers state) := by
    intro p
    rw [pendingParts, List.mem_filter, List.mem_range'_1, hn, Bool.not_eq_true', hcont p]
    constructor
    · rintro ⟨⟨ha, hb⟩, hc⟩
      exact ⟨ha, by omega, hc⟩
    · rintro ⟨ha, hb, hc⟩
      exact ⟨⟨ha, by omega⟩, hc⟩
  refine ⟨?_, hmem, ?_, ?_⟩
  · simp only [uploadRequests, Bool.false_eq_true, if_false, List.map_map]
    have hcomp : ((fun x : PartRequest => x.partNumber) ∘ (fun p : Nat =>
        ({ partNumber := p,
           start := (p - 1) * state.chunkSize,
           stop := min ((p - 1) * state.chunkSize + state.chunkSize) state.fileSize } :
          PartRequest))) = id := by
      funext p
      rfl
    rw [hcomp, List.map_id]
  · -- length computation
    have hsub : completedPartNumbers state ⊆ List.range' 1 n := by
      intro p hp
      rw [List.mem_range'_1]
      have := hrange p hp
      omega
    have hfil : List.Perm
        ((List.range' 1 n).filter (fun i => (completedPartNumbers state).contains i))
        (completedPartNumbers state) := by
      apply List.Subperm.antisymm
      · exact List.subperm_of_subset ((List.nodup_range' 1 n).filter _) (by
          intro x hx
          rw [List.mem_filter] at hx
          exact List.elem_iff.mp hx.2)
      · exact List.subperm_of_subset hnodup (by
          intro x hx
          rw [List.mem_filter]
          exact ⟨hsub hx, List.elem_iff.mpr hx⟩)
    have hlk : ((List.range' 1 n).filter
        (fun i => (completedPartNumbers state).contains i)).length = k := by
      rw [hfil.length_eq]
      simp only [completedPartNumbers, List.length_map]
      exact hk
    have hsplit := (List.filter_append_perm
      (fun i => (completedPartNumbers state).contains i) (List.range' 1 n)).length_eq
    rw [List.length_append, hlk, List.length_range'] at hsplit
    simp only [pendingParts, hn]
    omega
  · intro r hr
    simp only [uploadRequests, Bool.false_eq_true, if_false, List.mem_map] at hr
    obtain ⟨p, hp, rfl⟩ := hr
    have hp' := (hmem p).mp hp
    refine ⟨hp'.2.2, rfl, ?_⟩
    have h1 : 1 ≤ p := hp'.1
    have hmul : (p - 1) * state.chunkSize + state.chunkSize = p * state.chunkSize := by
      have hsucc : p - 1 + 1 = p := by omega
      calc (p - 1) * state.chunkSize + state.chunkSize
          = (p - 1 + 1) * state.chunkSize := (Nat.succ_mul _ _).symm
        _ = p * state.chunkSize := by rw [hsucc]
    simp [hmul]

/-- Concrete state used to witness the scheduler theorem: a 12-byte file in
chunks of 5 (3 parts) with part 2 already completed. -/
def sampleResumeState : UploadState :=
  { version := 1
    uploadId := "upload-1"
    bucket := "b"
    key := "k"
    fileSize := 12
    fileModified := 0
    chunkSize := 5
    totalParts := 3
    completedParts := [⟨2, "etag-2"⟩]
    createdAt := 0
    provider := "aws"
    endpoint := "https://s3.us-east-1.amazonaws.com" }

/-- C1 witness: for the sample state, the scheduler issues parts 1 and 3
only (2 = 3 - 1 requests) and part 3 gets the truncated final range. -/
theorem uploadPartsInParallel_resume_correct_witness :
    ((pendingParts sampleResumeState).length = 3 - 1) ∧
    ((uploadRequests sampleResumeState false).map (·.partNumber) =
        pendingParts sampleResumeState) ∧
    (pendingParts sampleResumeState = [1, 3]) :=
  ⟨(uploadPartsInParallel_resume_correct sampleResumeState 3 1 rfl rfl
      (by decide) (by decide)).2.2.1,
   (uploadPartsInParallel_resume_correct sampleResumeState 3 1 rfl rfl
      (by decide) (by decide)).1,
   by decide⟩

/-! ### src/lib/state.ts : loadState (C6) -/

/-- What reading and JSON-parsing the sidecar file can yield (state.ts
lines 42-48): the file may be missing, its text may fail to parse
(JSON.parse throws, caught by the surrounding try), or it parses into a
value with the UploadState shape. -/
inductive SidecarRead where
  | missing
  | corrupted
  | parsed (state : UploadState)
deriving Repr, DecidableEq

/-- loadState (state.ts lines 38-60) as a total function of the sidecar
read outcome: null (none) when the file is missing, when parsing throws,
or when the version field is not 1; the parsed state otherwise. -/
def loadState : SidecarRead → Option UploadState
  | .missing => none
  | .corrupted => none
  | .parsed s => if s.version = 1 then some s else none

/-- C6: loadState returns a state exactly when the sidecar parses and has
the supported version 1, and returns none — being a total function, it
never throws — on a missing file, a parse failure, or a version mismatch. -/
theorem loadState_total_version_gate :
    (loadState .missing = none) ∧
    (loadState .corrupted = none) ∧
    (∀ s : UploadState, s.version ≠ 1 → loadState (.parsed s) = none) ∧
    (∀ s : UploadState, s.version = 1 → loadState (.parsed s) = some s) ∧
    (∀ r : SidecarRead, ∀ s : UploadState,
        loadState r = some s ↔ r = .parsed s ∧ s.version = 1) := by
  refine ⟨rfl, rfl, ?_, ?_, ?_⟩
  · intro s hs
    simp [loadState, hs]
  · intro s hs
    simp [loadState, hs]
  · intro r s
    cases r with
    | missing => simp [loadState]
    | corrupted => simp [loadState]
    | parsed t =>
      by_cases hv : t.version = 1
      · simp only [loadState, if_pos hv, Option.some_inj, SidecarRead.parsed.injEq]
        constructor
        · rintro rfl
          exact ⟨rfl, hv⟩
        · rintro ⟨rfl, _⟩
          rfl
      · simp only [loadState, if_neg hv]
        constructor
        · intro h
          cases h
        · rintro ⟨h, hv1⟩
          cases h
          exact absurd hv1 hv

/-- C6 witness: a version-2 sidecar is treated as absent, a version-1 one
is returned. -/
theorem loadState_total_version_gate_witness :
    (loadState (.parsed { sampleResumeState with version := 2 }) = none) ∧
    (loadState (.parsed sampleResumeState) = some sampleResumeState) :=
  ⟨loadState_total_version_gate.2.2.1 _ (by decide),
   loadState_total_version_gate.2.2.2.1 _ rfl⟩

/-! ### src/lib/multipart.ts : orchestrator resume decision (C5) -/

/-- createInitialState (state.ts lines 129-155): fresh state with
totalParts = ceil(fileSize / chunkSize) and an empty completedParts list. -/
def createInitialState (uploadId bucket key : String) (fileSize : Nat)
    (fileModified : Int) (chunkSize : Nat) (provider endpoint : String)
    (createdAt : Int) : UploadState :=
  { version := 1
    uploadId := uploadId
    bucket := bucket
    key := key
    fileSize := fileSize
    fileModified := fileModified
    chunkSize := chunkSize
    totalParts := (fileSize + chunkSize - 1) / chunkSize
    completedParts := []
    createdAt := createdAt
    provider := provider
    endpoint := endpoint }

/-- The externally visible effects of the state-selection phase of
uploadMultipart (multipart.ts lines 385-433). -/
structure StatePrepResult where
  deletedLocal : Bool
  initiatedFresh : Bool
  state : UploadState
  savedState : Option UploadState
deriving Repr, DecidableEq

/-- uploadMultipart's fresh-vs-resume decision (multipart.ts lines
385-433): discard local state if absent or the file changed; on resume,
compare the remote part listing with the local record; when the remote
reports zero parts against a non-empty local record, delete the sidecar
and re-initiate fresh (obtaining `freshUploadId`), persisting the new
state; otherwise keep the local state untouched. -/
def prepareUploadState (localState : Option UploadState) (fileChanged : Bool)
    (remoteParts : List CompletedPart) (freshUploadId : String)
    (bucket key : String) (fileSize : Nat) (fileModified : Int) (chunkSize : Nat)
    (provider endpoint : String) (createdAt : Int) : StatePrepResult :=
  let usable : Option UploadState :=
    match localState with
    | none => none
    | some s => if fileChanged then none else some s
  match usable with
  | none =>
    let st := createInitialState freshUploadId bucket key fileSize fileModified
      chunkSize provider endpoint createdAt
    { deletedLocal := false, initiatedFresh := true, state := st, savedState := some st }
  | some s =>
    if remoteParts.length = 0 ∧ 0 < s.completedParts.length then
      let st := createInitialState freshUploadId bucket key fileSize fileModified
        chunkSize provider endpoint createdAt
      { deletedLocal := true, initiatedFresh := true, state := st, savedState := some st }
    else
      { deletedLocal := false, initiatedFresh := false, state := s, savedState := none }

/-- C5: on resume with an unchanged file, if the remote reports zero parts
while the local state records completed parts, uploadMultipart deletes the
sidecar, initiates fresh with the new upload id, builds a state with an
empty completedParts list, and persists it; the result is independent of
the stale local record (full restart, no partial merge). -/
theorem staleRemote_full_restart (s : UploadState) (remoteParts : List CompletedPart)
    (freshUploadId bucket key : String) (fileSize : Nat) (fileModified : Int)
    (chunkSize : Nat) (provider endpoint : String) (createdAt : Int)
    (hremote : remoteParts = [])
    (hlocal : 0 < s.completedParts.length) :
    let r := prepareUploadState (some s) false remoteParts freshUploadId
      bucket key fileSize fileModified chunkSize provider endpoint createdAt
    r.deletedLocal = true ∧
    r.initiatedFresh = true ∧
    r.state.uploadId = freshUploadId ∧
    r.state.completedParts = [] ∧
    r.savedState = some r.state ∧
    (∀ s' : UploadState, 0 < s'.completedParts.length →
      (prepareUploadState (some s') false remoteParts freshUploadId
        bucket key fileSize fileModified chunkSize provider endpoint createdAt).state =
        r.state) := by
  subst hremote
  have hcond : ([] : List CompletedPart).length = 0 ∧ 0 < s.completedParts.length :=
    ⟨rfl, hlocal⟩
  constructor
  · simp [prepareUploadState, hcond]
  constructor
  · simp [prepareUploadState, hcond]
  constructor
  · simp [prepareUploadState, hcond, createInitialState]
  constructor
  · simp [prepareUploadState, hcond, createInitialState]
  constructor
  · simp [prepareUploadState, hcond]
  · intro s' hl'
    simp [prepareUploadState, hcond, hl']

/-- C5 witness: with one locally recorded part but an empty remote listing,
the orchestrator restarts from scratch under the new upload id. -/
theorem staleRemote_full_restart_witness :
    ((prepareUploadState (some sampleResumeState) false [] "fresh-id"
        "b" "k" 12 0 5 "aws" "ep" 0).deletedLocal = true) ∧
    ((prepareUploadState (some sampleResumeState) false [] "fresh-id"
        "b" "k" 12 0 5 "aws" "ep" 0).state.completedParts = []) ∧
    ((prepareUploadState (some sampleResumeState) false [] "fresh-id"
        "b" "k" 12 0 5 "aws" "ep" 0).state.uploadId = "fresh-id") :=
  ⟨(staleRemote_full_restart sampleResumeState [] "fresh-id" "b" "k" 12 0 5 "aws" "ep" 0
      rfl (by decide)).1,
   (staleRemote_full_restart sampleResumeState [] "fresh-id" "b" "k" 12 0 5 "aws" "ep" 0
      rfl (by decide)).2.2.2.1,
   (staleRemote_full_restart sampleResumeState [] "fresh-id" "b" "k" 12 0 5 "aws" "ep" 0
      rfl (by decide)).2.2.1⟩

/-! ### src/lib/multipart.ts : outcome on cancellation (C4) -/

/-- MultipartOutcome (multipart.ts lines 30-40): the union of
`{success: true, publicUrl}` and `{success: false, error}`.  There is no
third variant. -/
inductive MultipartOutcome where
  | success (publicUrl : String)
  | failure (error : String)
deriving Repr, DecidableEq

/-- The `success` discriminant read by the callers (`!r.success`). -/
def MultipartOutcome.isFailure : MultipartOutcome → Bool
  | .success _ => false
  | .failure _ => true

/-- The tail of uploadMultipart (multipart.ts lines 442-470): `err` is an
exception escaping the try block (a part failure while not aborting, or an
initiate/finalize failure), turned into `{success:false, error:message}` by
the catch; absent that, the `isAborting` check returns
`{success:false, error:'Upload interrupted'}`; otherwise success with the
public URL. -/
def finishUpload (isAborting : Bool) (err : Option String)
    (publicUrlBase key : String) : MultipartOutcome :=
  match err with
  | some e => .failure e
  | none =>
    if isAborting then .failure "Upload interrupted"
    else .success (publicUrlBase ++ "/" ++ key)

/-- C4 counterexample: when cancellation is active and no other error
occurred, uploadMultipart returns the failure-shaped outcome
`{success:false, error:'Upload interrupted'}` — `isFailure` is true, and
the value is indistinguishable from a genuine hard failure carrying the
same message.  Cancellation is therefore reported as a failure, contrary
to the claim. -/
theorem cancellation_outcome_counterexample :
    (finishUpload true none "https://cdn.example.com" "k" =
        .failure "Upload interrupted") ∧
    ((finishUpload true none "https://cdn.example.com" "k").isFailure = true) ∧
    (finishUpload true none "https://cdn.example.com" "k" =
        finishUpload false (some "Upload interrupted") "https://cdn.example.com" "k") :=
  ⟨rfl, rfl, rfl⟩

/-- C4 amended: on cancellation with no other error, uploadMultipart
returns the failure variant with the fixed message "Upload interrupted";
it is never a success outcome, and it differs from other outcomes only
through that message. -/
theorem cancellation_returns_interrupted_failure (publicUrlBase key : String) :
    (finishUpload true none publicUrlBase key = .failure "Upload interrupted") ∧
    (∀ url, finishUpload true none publicUrlBase key ≠ .success url) ∧
    ((finishUpload true none publicUrlBase key).isFailure = true) ∧
    (∀ e, finishUpload true none publicUrlBase key = .failure e →
        e = "Upload interrupted") := by
  refine ⟨rfl, ?_, rfl, ?_⟩
  · intro url h
    cases h
  · intro e h
    cases h
    rfl

/-! ### src/lib/signing.ts : canonical query string (C3) -/

/-- Serialization of a URLSearchParams parameter list in list order
(application/x-www-form-urlencoded, for keys and values that need no
percent-escaping): `k=v` pairs joined by `&`.  This models
`parsedUrl.searchParams.toString()` as used at signing.ts line 105; the
WHATWG URLSearchParams preserves the order in which the parameters appear
in the URL and does not sort unless `.sort()` is called, which signing.ts
never does. -/
def serializeQuery (q : List (String × String)) : String :=
  String.intercalate "&" (q.map (fun kv => kv.1 ++ "=" ++ kv.2))

/-- canonicalQuerystring (signing.ts line 105). -/
def canonicalQueryString (q : List (String × String)) : String :=
  serializeQuery q

/-- The canonical request assembled at signing.ts lines 108-115: method,
URI path, canonical query string, canonical headers, signed-header list
and payload hash joined by newlines. -/
def canonicalRequest (method uri : String) (q : List (String × String))
    (canonicalHeaders signedHeadersStr payloadHash : String) : String :=
  String.intercalate "\n"
    [method, uri, canonicalQueryString q, canonicalHeaders, signedHeadersStr, payloadHash]

/-- Ordering of query parameters by key: lexicographic comparison of the
key's character sequences (for ASCII keys this is exactly the JS string
comparison used when sorting). -/
def queryKeyOrder (a b : String × String) : Prop :=
  a.1.data ≤ b.1.data

instance : DecidableRel queryKeyOrder :=
  fun a b => inferInstanceAs (Decidable (a.1.data ≤ b.1.data))

instance : IsTotal (String × String) queryKeyOrder :=
  ⟨fun a b => le_total a.1.data b.1.data⟩

instance : IsTrans (String × String) queryKeyOrder :=
  ⟨fun _ _ _ hab hbc => le_trans hab hbc⟩

/-- Modelled from the spec: the canonical query string as §4.1 step 2
describes it, with the parameters sorted lexically by key before
serialization. -/
def specSortedQueryString (q : List (String × String)) : String :=
  serializeQuery (q.insertionSort queryKeyOrder)

/-- C3 counterexample: for the input URL query `?b=1&a=2`, signRequest's
canonical query string keeps the input order `b=1&a=2` and differs from
the lexically sorted form `a=2&b=1` the claim requires. -/
theorem canonicalQuery_not_sorted_counterexample :
    (canonicalQueryString [("b", "1"), ("a", "2")] = "b=1&a=2") ∧
    (specSortedQueryString [("b", "1"), ("a", "2")] = "a=2&b=1") ∧
    (canonicalQueryString [("b", "1"), ("a", "2")] ≠
        specSortedQueryString [("b", "1"), ("a", "2")]) :=
  ⟨rfl, by decide, by decide⟩

/-- C3 amended: the canonical query string preserves the parameter order
of the input URL; it coincides with the spec's lexically-sorted form
exactly on inputs whose parameters already appear sorted by key — which
holds for every URL this program itself constructs (`?uploads`,
`?partNumber=..&uploadId=..`, `?uploadId=..`). -/
theorem canonicalQuery_preserves_input_order (q : List (String × String))
    (hsorted : q.Pairwise queryKeyOrder) :
    canonicalQueryString q = specSortedQueryString q := by
  unfold canonicalQueryString specSortedQueryString
  rw [List.Sorted.insertionSort_eq hsorted]

/-- C3 amended witness: the part-upload URL query
`?partNumber=2&uploadId=abc` is already sorted by key, so the canonical
query string agrees with the sorted form there. -/
theorem canonicalQuery_preserves_input_order_witness :
    (([("partNumber", "2"), ("uploadId", "abc")] :
        List (String × String)).Pairwise queryKeyOrder) ∧
    (canonicalQueryString [("partNumber", "2"), ("uploadId", "abc")] =
        specSortedQueryString [("partNumber", "2"), ("uploadId", "abc")]) :=
  ⟨by decide, canonicalQuery_preserves_input_order _ (by decide)⟩

/-! ### src/lib/progress-bar.ts -/

/-- One speed sample `{time, bytes}`: wall-clock milliseconds and the
cumulative uploaded byte count at that moment. -/
structure Sample where
  time : Int
  bytes : Nat
deriving Repr, DecidableEq

/-- ProgressState (progress-bar.ts lines 10-18). -/
structure ProgressState where
  filename : String
  completedParts : Nat
  totalParts : Nat
  bytesUploaded : Nat
  totalBytes : Nat
  startTime : Int
  recentSamples : List Sample
deriving Repr, DecidableEq

/-- updateProgress (progress-bar.ts lines 42-53) at clock value `now`:
bump the counters, push a sample of the new cumulative byte count, and
prune samples older than the 30-second window ending at `now`. -/
def updateProgress (s : ProgressState) (bytesUploaded : Nat) (now : Int) : ProgressState :=
  let b := s.bytesUploaded + bytesUploaded
  { s with
    completedParts := s.completedParts + 1
    bytesUploaded := b
    recentSamples := (s.recentSamples ++ [({ time := now, bytes := b } : Sample)]).filter
      (fun x => now - 30000 ≤ x.time) }

/-- The read `state.recentSamples[0]` at progress-bar.ts line 62 (total
variant; the read is guarded by `length ≥ 2`). -/
def oldestSample (s : ProgressState) : Sample :=
  s.recentSamples.headD ⟨0, 0⟩

/-- The read `state.recentSamples[state.recentSamples.length - 1]` at
progress-bar.ts line 63. -/
def newestSample (s : ProgressState) : Sample :=
  s.recentSamples.getLastD ⟨0, 0⟩

/-- calculateSpeed (progress-bar.ts lines 59-79) at clock value `now`
(`Date.now()` of line 73): when ≥ 2 samples are retained and their time
span is positive, the speed is computed from the first and last retained
samples; otherwise fall through to the lifetime average, itself guarded by
`elapsed > 0 && bytesUploaded > 0`, else 0. -/
def calculateSpeed (s : ProgressState) (now : Int) : ℚ :=
  let oldest := oldestSample s
  let newest := newestSample s
  let timeDiff : ℚ := ((newest.time - oldest.time : Int) : ℚ) / 1000
  if 2 ≤ s.recentSamples.length ∧ 0 < timeDiff then
    ((newest.bytes : ℚ) - (oldest.bytes : ℚ)) / timeDiff
  else
    let elapsed : ℚ := ((now - s.startTime : Int) : ℚ) / 1000
    if 0 < elapsed ∧ 0 < s.bytesUploaded then (s.bytesUploaded : ℚ) / elapsed
    else 0

/-- Modelled from the spec (§4.5 and C9): the samples lying within the
trailing 30-second window that ends at the current clock value `now`. -/
def windowSamples (s : ProgressState) (now : Int) : List Sample :=
  s.recentSamples.filter (fun x => now - 30000 ≤ x.time)

/-- Modelled from the spec (§4.5 and C9): speed from the oldest and newest
samples inside the current trailing window when at least two lie there,
and the lifetime average otherwise. -/
def specSpeedClaim (s : ProgressState) (now : Int) : ℚ :=
  let ws := windowSamples s now
  let oldest := ws.headD ⟨0, 0⟩
  let newest := ws.getLastD ⟨0, 0⟩
  if 2 ≤ ws.length then
    ((newest.bytes : ℚ) - (oldest.bytes : ℚ)) /
      (((newest.time - oldest.time : Int) : ℚ) / 1000)
  else
    (s.bytesUploaded : ℚ) / (((now - s.startTime : Int) : ℚ) / 1000)

/-- A progress state whose two samples have aged out of the 30-second
window: the last update happened at t = 1000 ms, and the clock now reads
100000 ms. -/
def staleProgress : ProgressState :=
  { filename := "f"
    completedParts := 1
    totalParts := 5
    bytesUploaded := 1000
    totalBytes := 5000
    startTime := 0
    recentSamples := [⟨0, 0⟩, ⟨1000, 1000⟩] }

/-- C9 counterexample: with both samples older than the trailing window
(zero samples lie within it), calculateSpeed still reports the stale
sample-based speed 1000 B/s instead of the lifetime average 10 B/s the
claim requires. -/
theorem calculateSpeed_stale_counterexample :
    (windowSamples staleProgress 100000 = []) ∧
    (calculateSpeed staleProgress 100000 = 1000) ∧
    (specSpeedClaim staleProgress 100000 = 10) ∧
    (calculateSpeed staleProgress 100000 ≠ specSpeedClaim staleProgress 100000) := by
  have hw : windowSamples staleProgress 100000 = [] := by
    simp [windowSamples, staleProgress]
  have hc : calculateSpeed staleProgress 100000 = 1000 := by
    simp only [calculateSpeed, oldestSample, newestSample, staleProgress]
    norm_num
  have hs : specSpeedClaim staleProgress 100000 = 10 := by
    simp only [specSpeedClaim, hw]
    simp only [staleProgress]
    norm_num
  refine ⟨hw, hc, hs, ?_⟩
  rw [hc, hs]
  norm_num

/-- C9 amended: updateProgress prunes the retained samples to the
30-second window ending at the update time; calculateSpeed then uses the
first and last *retained* samples whenever at least two are retained with
distinct times — regardless of how much clock time has since passed — and
falls back to the lifetime average only when fewer than two samples are
retained (given positive elapsed time and a positive byte count). -/
theorem calculateSpeed_retained_samples :
    (∀ (s : ProgressState) (b : Nat) (now : Int),
      ∀ x ∈ (updateProgress s b now).recentSamples, now - 30000 ≤ x.time) ∧
    (∀ (s : ProgressState) (now : Int),
      2 ≤ s.recentSamples.length →
      (oldestSample s).time < (newestSample s).time →
      calculateSpeed s now =
        (((newestSample s).bytes : ℚ) - ((oldestSample s).bytes : ℚ)) /
          ((((newestSample s).time - (oldestSample s).time : Int) : ℚ) / 1000)) ∧
    (∀ (s : ProgressState) (now : Int),
      s.recentSamples.length < 2 →
      s.startTime < now →
      0 < s.bytesUploaded →
      calculateSpeed s now =
        (s.bytesUploaded : ℚ) / (((now - s.startTime : Int) : ℚ) / 1000)) := by
  refine ⟨?_, ?_, ?_⟩
  · intro s b now x hx
    simp only [updateProgress, List.mem_filter, decide_eq_true_eq] at hx
    exact hx.2
  · intro s now hlen ht
    have hpos : (0 : ℚ) < (((newestSample s).time - (oldestSample s).time : Int) : ℚ) / 1000 := by
      apply div_pos
      · rw [Int.cast_pos]
        omega
      · norm_num
    simp only [calculateSpeed]
    rw [if_pos ⟨hlen, hpos⟩]
  · intro s now hlen ht hb
    have hneg : ¬ (2 ≤ s.recentSamples.length ∧
        (0 : ℚ) < (((newestSample s).time - (oldestSample s).time : Int) : ℚ) / 1000) := by
      rintro ⟨h2, _⟩
      omega
    have hpos : (0 : ℚ) < ((now - s.startTime : Int) : ℚ) / 1000 := by
      apply div_pos
      · rw [Int.cast_pos]
        omega
      · norm_num
    simp only [calculateSpeed]
    rw [if_neg hneg, if_pos ⟨hpos, hb⟩]

/-- A progress state with two in-window samples spanning 2 seconds and
3000 bytes. -/
def liveProgress : ProgressState :=
  { filename := "f"
    completedParts := 2
    totalParts := 5
    bytesUploaded := 3000
    totalBytes := 5000
    startTime := 0
    recentSamples := [⟨0, 0⟩, ⟨2000, 3000⟩] }

/-- C9 amended witness: the sample-based branch at a two-sample state and
the lifetime-average branch at a one-sample state, at concrete clocks. -/
theorem calculateSpeed_retained_samples_witness :
    (calculateSpeed liveProgress 5000 =
        (((newestSample liveProgress).bytes : ℚ) - ((oldestSample liveProgress).bytes : ℚ)) /
          ((((newestSample liveProgress).time - (oldestSample liveProgress).time : Int) : ℚ) /
            1000)) ∧
    (calculateSpeed { liveProgress with recentSamples := [⟨0, 0⟩] } 5000 =
        (({ liveProgress with recentSamples := [⟨0, 0⟩] } :
            ProgressState).bytesUploaded : ℚ) /
          (((5000 - ({ liveProgress with recentSamples := [⟨0, 0⟩] } :
              ProgressState).startTime : Int) : ℚ) / 1000)) :=
  ⟨calculateSpeed_retained_samples.2.1 liveProgress 5000 (by decide) (by decide),
   calculateSpeed_retained_samples.2.2 _ 5000 (by decide) (by decide) (by decide)⟩

/-- JS `Math.round(num/den)` for non-negative operands with `den > 0`:
`⌊num/den + 1/2⌋ = ⌊(2*num + den) / (2*den)⌋`, i.e. Nat division below. -/
def jsRoundRatio (num den : Nat) : Nat :=
  (2 * num + den) / (2 * den)

/-- The `percent` computed at progress-bar.ts lines 103-104:
`Math.round((bytesUploaded / totalBytes) * 100)` when totalBytes > 0,
else 0.  No clamping is applied. -/
def percentOf (s : ProgressState) : Nat :=
  if 0 < s.totalBytes then jsRoundRatio (100 * s.bytesUploaded) s.totalBytes else 0

/-- The `filledWidth` computed at progress-bar.ts line 105:
`Math.round((percent / 100) * width)`. -/
def filledWidthOf (s : ProgressState) (width : Nat) : Nat :=
  jsRoundRatio (percentOf s * width) 100

/-- Numeric outcome of renderProgressBar: the rendered percentage and the
two bar-segment widths. -/
structure RenderedBar where
  percent : Nat
  filledWidth : Nat
  emptyWidth : Nat
deriving Repr, DecidableEq

/-- renderProgressBar (progress-bar.ts lines 102-125), numeric skeleton:
`emptyWidth = width - filledWidth` feeds `'░'.repeat(emptyWidth)`, which
throws a RangeError when `emptyWidth` is negative — modelled as `none`. -/
def renderProgressBar (s : ProgressState) (width : Nat) : Option RenderedBar :=
  let filled := filledWidthOf s width
  if filled ≤ width then
    some { percent := percentOf s, filledWidth := filled, emptyWidth := width - filled }
  else
    none

/-- A progress state whose uploaded byte count exceeds the total. -/
def overflowProgress : ProgressState :=
  { filename := "f"
    completedParts := 1
    totalParts := 1
    bytesUploaded := 200
    totalBytes := 100
    startTime := 0
    recentSamples := [] }

/-- C8 counterexample: with bytesUploaded = 200 over totalBytes = 100 the
rendered percentage is 200 — not clamped to 100 — and the renderer fails
(negative-count repeat), contrary to the claim. -/
theorem renderProgressBar_unclamped_counterexample :
    (percentOf overflowProgress = 200) ∧
    (¬ percentOf overflowProgress ≤ 100) ∧
    (renderProgressBar overflowProgress 30 = none) := by
  decide

/-- C8 amended: the rendered percentage equals the un-clamped
`Math.round(100 * bytesUploaded / totalBytes)` (0 when totalBytes = 0);
whenever bytesUploaded ≤ totalBytes it stays ≤ 100, the filled width stays
within the bar, and rendering succeeds — but no clamping protects the case
bytesUploaded > totalBytes. -/
theorem renderProgressBar_bounded (s : ProgressState) (width : Nat)
    (hle : s.bytesUploaded ≤ s.totalBytes) :
    percentOf s ≤ 100 ∧
    filledWidthOf s width ≤ width ∧
    renderProgressBar s width =
      some { percent := percentOf s, filledWidth := filledWidthOf s width,
             emptyWidth := width - filledWidthOf s width } := by
  have hpercent : percentOf s ≤ 100 := by
    by_cases ht : 0 < s.totalBytes
    · have hlt : (2 * (100 * s.bytesUploaded) + s.totalBytes) / (2 * s.totalBytes) < 101 := by
        rw [Nat.div_lt_iff_lt_mul (by omega)]
        omega
      simp only [percentOf, if_pos ht, jsRoundRatio]
      omega
    · simp [percentOf, ht]
  have hfilled : filledWidthOf s width ≤ width := by
    have hmul : percentOf s * width ≤ 100 * width :=
      Nat.mul_le_mul_right width hpercent
    have hlt : (2 * (percentOf s * width) + 100) / (2 * 100) < width + 1 := by
      rw [Nat.div_lt_iff_lt_mul (by omega)]
      omega
    simp only [filledWidthOf, jsRoundRatio]
    omega
  refine ⟨hpercent, hfilled, ?_⟩
  simp only [renderProgressBar]
  rw [if_pos hfilled]

/-- A half-done progress state. -/
def halfProgress : ProgressState :=
  { filename := "f"
    completedParts := 1
    totalParts := 2
    bytesUploaded := 50
    totalBytes := 100
    startTime := 0
    recentSamples := [] }

/-- C8 amended witness: at 50 of 100 bytes the percentage is within
bounds and the 30-cell bar renders. -/
theorem renderProgressBar_bounded_witness :
    (percentOf halfProgress ≤ 100) ∧
    (renderProgressBar halfProgress 30 =
      some { percent := percentOf halfProgress,
             filledWidth := filledWidthOf halfProgress 30,
             emptyWidth := 30 - filledWidthOf halfProgress 30 }) :=
  ⟨(renderProgressBar_bounded halfProgress 30 (by decide)).1,
   (renderProgressBar_bounded halfProgress 30 (by decide)).2.2⟩

/-! ### src/lib/s3.ts : parseAge (C10) -/

/-- The regex `^(\d+)([dhm])?$` of s3.ts line 108 as a total matcher on
the character sequence: a nonempty run of ASCII digits (JS `\d`), then at
most one unit character d, h or m, then the end of the string.  Returns
the digit run and the optional unit when the string matches. -/
def matchAge (cs : List Char) : Option (List Char × Option Char) :=
  let digits := cs.takeWhile (·.isDigit)
  let rest := cs.dropWhile (·.isDigit)
  if digits.isEmpty then none
  else
    match rest with
    | [] => some (digits, none)
    | [c] => if c = 'd' ∨ c = 'h' ∨ c = 'm' then some (digits, some c) else none
    | _ => none

/-- JS `parseInt(digits, 10)` on a digit run. -/
def digitsToNat (cs : List Char) : Nat :=
  cs.foldl (fun acc c => 10 * acc + (c.toNat - 48)) 0

/-- parseAge (s3.ts lines 105-124): '0' is special-cased to 0; a matching
`<n>[d|h|m]` becomes milliseconds (days when the unit is absent); every
non-matching string yields 0. -/
def parseAge (s : String) : Nat :=
  if s = "0" then 0
  else
    match matchAge s.data with
    | none => 0
    | some (digits, unitOpt) =>
      let value := digitsToNat digits
      match unitOpt.getD 'd' with
      | 'd' => value * 86400000
      | 'h' => value * 3600000
      | 'm' => value * 60000
      | _ => value * 86400000

/-! ### src/commands/prune.ts : retention filter (C7, C10) -/

/-- S3Object (s3.ts lines 5-10), with lastModified as epoch milliseconds
(`lastModified.getTime()` is what the filter reads). -/
structure S3Object where
  key : String
  size : Nat
  lastModified : Int
deriving Repr, DecidableEq

/-- PruneFilterOptions (prune.ts lines 11-16); `now` models
`options.now ?? Date.now()` as an explicit clock input. -/
structure PruneFilterOptions where
  olderThan : Option Nat
  keepLast : Option Nat
  minAge : String
  now : Int
deriving Repr, DecidableEq

/-- The comparator `(a, b) => b.lastModified - a.lastModified` of prune.ts
line 26 (newest first) as the ordering relation of the stable JS sort. -/
def newestFirst (a b : S3Object) : Prop :=
  b.lastModified ≤ a.lastModified

instance : DecidableRel newestFirst :=
  fun a b => inferInstanceAs (Decidable (b.lastModified ≤ a.lastModified))

instance : IsTotal S3Object newestFirst :=
  ⟨fun a b => le_total b.lastModified a.lastModified⟩

instance : IsTrans S3Object newestFirst :=
  ⟨fun _ _ _ hab hbc => le_trans hbc hab⟩

/-- The `sorted` list of prune.ts line 26. -/
def sortedByNewest (objects : List S3Object) : List S3Object :=
  objects.insertionSort newestFirst

/-- The protected-key set of prune.ts lines 29-34: when keepLast is set
and non-zero (JS truthiness: `if (options.keepLast)`), the keys of the
first min(keepLast, length) objects of the newest-first order. -/
def protectedKeys (objects : List S3Object) (opts : PruneFilterOptions) : List String :=
  match opts.keepLast with
  | none => []
  | some k => if k = 0 then [] else ((sortedByNewest objects).take k).map (·.key)

/-- The filter body of prune.ts lines 36-52: reject when age ≤ minAgeMs,
when the key is protected, or when olderThan is set and age ≤ olderThan
in milliseconds; keep otherwise. -/
def passesPruneFilters (opts : PruneFilterOptions) (prot : List String)
    (obj : S3Object) : Bool :=
  let age := opts.now - obj.lastModified
  if age ≤ (parseAge opts.minAge : Int) then false
  else if prot.contains obj.key then false
  else
    match opts.olderThan with
    | some d => if age ≤ ((d * 86400000 : Nat) : Int) then false else true
    | none => true

/-- filterObjectsForPrune (prune.ts lines 18-53). -/
def filterObjectsForPrune (objects : List S3Object)
    (opts : PruneFilterOptions) : List S3Object :=
  (sortedByNewest objects).filter
    (passesPruneFilters opts (protectedKeys objects opts))

/-- Shared characterization of the retention filter's selection. -/
theorem mem_filterObjectsForPrune (objects : List S3Object)
    (opts : PruneFilterOptions) (obj : S3Object) :
    obj ∈ filterObjectsForPrune objects opts ↔
      obj ∈ objects ∧
      ((parseAge opts.minAge : Int) < opts.now - obj.lastModified ∧
       obj.key ∉ protectedKeys objects opts ∧
       (∀ d, opts.olderThan = some d →
          ((d * 86400000 : Nat) : Int) < opts.now - obj.lastModified)) := by
  have hpass : passesPruneFilters opts (protectedKeys objects opts) obj = true ↔
      ((parseAge opts.minAge : Int) < opts.now - obj.lastModified ∧
       obj.key ∉ protectedKeys objects opts ∧
       (∀ d, opts.olderThan = some d →
          ((d * 86400000 : Nat) : Int) < opts.now - obj.lastModified)) := by
    simp only [passesPruneFilters]
    by_cases h1 : opts.now - obj.lastModified ≤ (parseAge opts.minAge : Int)
    · rw [if_pos h1]
      constructor
      · intro h
        cases h
      · rintro ⟨hlt, _, _⟩
        omega
    · rw [if_neg h1]
      by_cases h2 : (protectedKeys objects opts).contains obj.key = true
      · rw [if_pos h2]
        constructor
        · intro h
          cases h
        · rintro ⟨_, hnp, _⟩
          exact absurd (List.elem_iff.mp h2) hnp
      · rw [if_neg h2]
        have hnp : obj.key ∉ protectedKeys objects opts := by
          intro hmem
          exact h2 (List.elem_iff.mpr hmem)
        cases ho : opts.olderThan with
        | none =>
          simp only [true_iff, iff_true]
          refine ⟨by omega, hnp, ?_⟩
          intro d hd
          cases hd
        | some d =>
          dsimp only
          by_cases h3 : opts.now - obj.lastModified ≤ ((d * 86400000 : Nat) : Int)
          · rw [if_pos h3]
            constructor
            · intro h
              cases h
            · rintro ⟨_, _, hall⟩
              have := hall d rfl
              omega
          · rw [if_neg h3]
            constructor
            · intro _
              refine ⟨by omega, hnp, ?_⟩
              rintro d' hd'
              cases hd'
              omega
            · intro _
              rfl
  have hmemsort : obj ∈ sortedByNewest objects ↔ obj ∈ objects := by
    rw [sortedByNewest]
    exact List.mem_insertionSort newestFirst
  rw [filterObjectsForPrune, List.mem_filter, hmemsort, hpass]

/-- A prune-scenario object `ageDays` days older than the scenario clock. -/
def pruneObj (name : String) (ageDays : Nat) : S3Object :=
  { key := name, size := 1, lastModified := 1700000000000 - ageDays * 86400000 }

/-- The C7 scenario objects, aged 1, 2, 3, 11 and 21 days, listed in
scrambled order. -/
def pruneScenarioObjects : List S3Object :=
  [pruneObj "age3" 3, pruneObj "age21" 21, pruneObj "age1" 1,
   pruneObj "age11" 11, pruneObj "age2" 2]

/-- The C7 scenario options: keepLast = 3, olderThan = 2 days,
minAge = "0d". -/
def pruneScenarioOpts : PruneFilterOptions :=
  { olderThan := some 2, keepLast := some 3, minAge := "0d", now := 1700000000000 }

/-- C7: an object is selected for deletion iff every active criterion
agrees — its age strictly exceeds the minAge floor, its key is not among
the keepLast newest, and, when olderThanDays is set, its age strictly
exceeds that threshold; and in the concrete scenario with ages
[1,2,3,11,21] days, keepLast=3, olderThan=2, minAge=0d, exactly the
objects aged 11 and 21 days are selected. -/
theorem filterObjectsForPrune_and_of_criteria :
    (∀ (objects : List S3Object) (opts : PruneFilterOptions) (obj : S3Object),
      obj ∈ filterObjectsForPrune objects opts ↔
        obj ∈ objects ∧
        ((parseAge opts.minAge : Int) < opts.now - obj.lastModified ∧
         obj.key ∉ protectedKeys objects opts ∧
         (∀ d, opts.olderThan = some d →
            ((d * 86400000 : Nat) : Int) < opts.now - obj.lastModified))) ∧
    (filterObjectsForPrune pruneScenarioObjects pruneScenarioOpts =
      [pruneObj "age11" 11, pruneObj "age21" 21]) :=
  ⟨mem_filterObjectsForPrune, by decide⟩

/-- C10: every age string other than "0" that fails the `^(\d+)([dhm])?$`
pattern parses to 0 milliseconds, so using it as minAge disables the
minimum-age floor: with no other criteria active, every object with
positive age is selected. -/
theorem parseAge_malformed_disables_floor (s : String)
    (hnz : s ≠ "0") (hnm : matchAge s.data = none) :
    parseAge s = 0 ∧
    (∀ (objects : List S3Object) (obj : S3Object) (now : Int),
      obj ∈ filterObjectsForPrune objects
          { olderThan := none, keepLast := none, minAge := s, now := now } ↔
        obj ∈ objects ∧ 0 < now - obj.lastModified) := by
  have hz : parseAge s = 0 := by
    rw [parseAge, if_neg hnz, hnm]
  refine ⟨hz, ?_⟩
  intro objects obj now
  rw [mem_filterObjectsForPrune]
  simp only [protectedKeys, List.not_mem_nil, not_false_iff, hz]
  constructor
  · rintro ⟨hm, hage, _, _⟩
    refine ⟨hm, ?_⟩
    simpa using hage
  · rintro ⟨hm, hage⟩
    refine ⟨hm, by simpa using hage, ?_, ?_⟩
    · simp
    · intro d hd
      cases hd

/-- C10 witness: "1 d", "-3d", "1.5d" and "abc" all parse to 0, and with
minAge "1 d" an object 5 seconds old is selected by the filter. -/
theorem parseAge_malformed_disables_floor_witness :
    (parseAge "1 d" = 0) ∧
    (parseAge "-3d" = 0) ∧
    (parseAge "1.5d" = 0) ∧
    (parseAge "abc" = 0) ∧
    (pruneObj "o" 0 ∈ filterObjectsForPrune [pruneObj "o" 0]
        { olderThan := none, keepLast := none, minAge := "1 d",
          now := 1700000000000 + 5000 } ↔
      pruneObj "o" 0 ∈ [pruneObj "o" 0] ∧
      0 < (1700000000000 + 5000 : Int) - (pruneObj "o" 0).lastModified) :=
  ⟨(parseAge_malformed_disables_floor "1 d" (by decide) (by decide)).1,
   (parseAge_malformed_disables_floor "-3d" (by decide) (by decide)).1,
   (parseAge_malformed_disables_floor "1.5d" (by decide) (by decide)).1,
   (parseAge_malformed_disables_floor "abc" (by decide) (by decide)).1,
   (parseAge_malformed_disables_floor "1 d" (by decide) (by decide)).2
     [pruneObj "o" 0] (pruneObj "o" 0) (1700000000000 + 5000)⟩

end S3up
